import Mathlib

/-!
Verification of the `wise` crate's CoreFoundation ownership layer.

The embedding follows `src/lib.rs` (equivalently `src/memory.rs`, which holds
the same definitions).  The external reference-counted object system is made
explicit as a state `St`: a heap assigning each allocation its current retain
count, together with counters of the `CFRetain` and `CFRelease` calls the
embedded code has performed.  Raw pointers are natural numbers with `0` as
null.  Foreign calls (`CFDictionaryCreate`, `NSString` construction, the
running-application registry, `NSArray` accessors) are injected through
environment records, so the fallible paths of `has_accessibility_permissions`
and `running_apps_with_bundle_id` can be exercised.
-/

namespace Wise

/-- A raw foreign reference (`CFTypeRef` / `id`); `0` models the null pointer. -/
abbrev Ptr := Nat

/-- State of the external object system: per-allocation retain count, plus
counts of how many `CFRetain` and `CFRelease` calls the embedded code has
issued. -/
structure St where
  heap : Ptr → Nat
  retains : Nat
  releases : Nat

/-- Increment the stored count of allocation `p`. -/
def bumpHeap (h : Ptr → Nat) (p : Ptr) : Ptr → Nat :=
  fun q => if q = p then h q + 1 else h q

/-- Decrement the stored count of allocation `p`. -/
def decHeap (h : Ptr → Nat) (p : Ptr) : Ptr → Nat :=
  fun q => if q = p then h q - 1 else h q

/-- `CFRetain`: increments the external count of `p` and returns `p`. -/
def cfRetain (s : St) (p : Ptr) : Ptr × St :=
  (p, ⟨bumpHeap s.heap p, s.retains + 1, s.releases⟩)

/-- `CFRelease`: decrements the external count of `p`. -/
def cfRelease (s : St) (p : Ptr) : St :=
  ⟨decHeap s.heap p, s.retains, s.releases + 1⟩

/-- `CFGetRetainCount`: observational count query, no side effect. -/
def cfGetRetainCount (s : St) (p : Ptr) : Nat := s.heap p

/-- Effect of a foreign call that hands the caller ownership of one count of
its result: when the call returns a non-null reference `p`, the caller now
owns one unit of `p`'s external count.  A null result grants nothing.  This
is not a `CFRetain` performed by the embedded code, so the retain counter is
untouched. -/
def foreignCreate (s : St) (p : Ptr) : St :=
  if p = 0 then s else ⟨bumpHeap s.heap p, s.retains, s.releases⟩

/-- The error enum `WiseError` of `src/lib.rs`. -/
inductive WiseError where
  | CouldNotCreateCFObject
  | UnexpectedNull
  | Whatever (message : String)
deriving DecidableEq

/-- The handle `Rc<T>` of `src/lib.rs`: one opaque external reference plus a
phantom marker.  The Rust type is generic over the pointee; only the
mutability flavor of the pointer (`*mut Inner` vs `*const Inner`) matters to
the code, so the phantom is reduced to that flavor: `Rc true` embeds
`Rc<*mut Inner>` and `Rc false` embeds `Rc<*const Inner>`. -/
structure Rc (m : Bool) where
  ptr : Ptr
deriving DecidableEq

/-- `Rc::<*mut Inner>::new_mut`: `None` on null, otherwise wraps the pointer
unchanged; performs no foreign call. -/
def Rc.new_mut (p : Ptr) : Option (Rc true) :=
  if p = 0 then none else some ⟨p⟩

/-- `Rc::<*const Inner>::new_const`: `None` on null, otherwise wraps the
pointer unchanged; performs no foreign call. -/
def Rc.new_const (p : Ptr) : Option (Rc false) :=
  if p = 0 then none else some ⟨p⟩

/-- `Rc::<*mut Inner>::get`: exposes the stored raw pointer. -/
def Rc.get_mut (rc : Rc true) : Ptr := rc.ptr

/-- `Rc::<*const Inner>::get`: exposes the stored raw pointer. -/
def Rc.get_const (rc : Rc false) : Ptr := rc.ptr

/-- `Rc::strong_count` (shared by both flavors): `CFGetRetainCount` on the
stored pointer. -/
def Rc.strong_count {m : Bool} (s : St) (rc : Rc m) : Nat :=
  cfGetRetainCount s rc.ptr

/-- `impl Clone for Rc<*const Inner>`: `CFRetain` the stored pointer and wrap
what `CFRetain` returns. -/
def Rc.clone_const (s : St) (rc : Rc false) : Rc false × St :=
  let r := cfRetain s rc.ptr
  (⟨r.1⟩, r.2)

/-- `impl Clone for Rc<*mut Inner>`: `CFRetain` the stored pointer and wrap
what `CFRetain` returns. -/
def Rc.clone_mut (s : St) (rc : Rc true) : Rc true × St :=
  let r := cfRetain s rc.ptr
  (⟨r.1⟩, r.2)

/-- `impl Drop for Rc<T>` (shared by both flavors): `CFRelease` the stored
pointer. -/
def Rc.drop {m : Bool} (s : St) (rc : Rc m) : St :=
  cfRelease s rc.ptr

/-- `<id as ManageWithRc>::into_rc`: just `Rc::new_mut`, no foreign call. -/
def into_rc (p : Ptr) : Option (Rc true) := Rc.new_mut p

/-- `<id as ManageWithRc>::as_rc`: `Rc::new_mut` first (early return `None` on
null), then one `CFRetain` on the pointer. -/
def as_rc (s : St) (p : Ptr) : Option (Rc true) × St :=
  match Rc.new_mut p with
  | none => (none, s)
  | some rc => (some rc, (cfRetain s p).2)

/-- Environment of `has_accessibility_permissions`: the reference returned by
the `CFDictionaryCreate` factory (null modelling factory failure), and the
`AXIsProcessTrustedWithOptions` trust query as a function of the options
reference passed to it. -/
structure PermEnv where
  dictionaryCreate : Ptr
  axIsProcessTrusted : Ptr → Bool

/-- `has_accessibility_permissions` of `src/lib.rs`.  The third component of
the result counts how many trust-query calls were performed.  The options
dictionary produced by the factory is wrapped with `Rc::new_const` (owned
acquisition, no retain) and released by scope exit on the success path; on
the null-factory path no handle exists, and the call reports
`CouldNotCreateCFObject` without querying trust. -/
def has_accessibility_permissions (env : PermEnv) (s : St) :
    Except WiseError Bool × St × Nat :=
  let dictPtr := env.dictionaryCreate
  let s0 := foreignCreate s dictPtr
  match Rc.new_const dictPtr with
  | none => (Except.error WiseError.CouldNotCreateCFObject, s0, 0)
  | some options =>
    (Except.ok (env.axIsProcessTrusted (Rc.get_const options)),
      Rc.drop s0 options, 1)

/-- Environment of `running_apps_with_bundle_id`: the reference returned by
`NSString::alloc().init_str(..)`, the registry call
`runningApplicationsWithBundleIdentifier` as a function of the string
reference, `NSArray::count`, and `NSArray::objectAtIndex`. -/
structure AppEnv where
  nsstringInit : Ptr
  runningApplications : Ptr → Ptr
  nsarrayCount : Ptr → Nat
  objectAtIndex : Ptr → Nat → Ptr

/-- The element loop of `running_apps_with_bundle_id`: for each index the
element reference (borrowed from the array) is wrapped with `as_rc`; a null
element aborts with `UnexpectedNull`, and the handles already pushed release
by scope exit as the error propagates. -/
def collectApps (env : AppEnv) (arr : Ptr) (i r : Nat) (s : St) :
    Except WiseError (List (Rc true)) × St :=
  match r with
  | 0 => (Except.ok [], s)
  | Nat.succ rr =>
    match as_rc s (env.objectAtIndex arr i) with
    | (none, s1) => (Except.error WiseError.UnexpectedNull, s1)
    | (some rc, s1) =>
      match collectApps env arr (i + 1) rr s1 with
      | (Except.error e, s2) => (Except.error e, Rc.drop s2 rc)
      | (Except.ok rest, s2) => (Except.ok (rc :: rest), s2)

/-- `running_apps_with_bundle_id` of `src/lib.rs`: build the bundle-id string
(owned, `into_rc`, `CouldNotCreateCFObject` on null), query the registry
(owned, `into_rc`, `UnexpectedNull` on null), read the array length, and
acquire each element with `as_rc`.  The string and array handles are dropped
at every function exit; the element handles are returned on success and are
dropped during error propagation. -/
def running_apps_with_bundle_id (env : AppEnv) (s : St) :
    Except WiseError (List (Rc true)) × St :=
  let strPtr := env.nsstringInit
  let s0 := foreignCreate s strPtr
  match into_rc strPtr with
  | none => (Except.error WiseError.CouldNotCreateCFObject, s0)
  | some strRc =>
    let arrPtr := env.runningApplications (Rc.get_mut strRc)
    let s1 := foreignCreate s0 arrPtr
    match into_rc arrPtr with
    | none => (Except.error WiseError.UnexpectedNull, Rc.drop s1 strRc)
    | some arrRc =>
      let res := collectApps env (Rc.get_mut arrRc) 0
        (env.nsarrayCount (Rc.get_mut arrRc)) s1
      (res.1, Rc.drop (Rc.drop res.2 arrRc) strRc)

/-- Number of live handles in `hs` wrapping allocation `p`. -/
def owners (hs : List (Rc true)) (p : Ptr) : Nat :=
  hs.countP (fun rc => rc.ptr == p)

/-- The counting invariant of §3 of the spec: each independently-held handle
accounts for one unit of the external count, so the count of every
allocation is at least the number of live handles wrapping it. -/
def CountInv (hs : List (Rc true)) (s : St) : Prop :=
  ∀ p, owners hs p ≤ s.heap p

/-- The raw element references the array yields at indices `i, …, i+r-1`. -/
def elemPtrs (env : AppEnv) (arr : Ptr) (i r : Nat) : List Ptr :=
  (List.range r).map (fun j => env.objectAtIndex arr (i + j))

/-- The handles `collectApps` produces on a fully non-null range. -/
def expectedApps (env : AppEnv) (arr : Ptr) (i r : Nat) : List (Rc true) :=
  (List.range r).map (fun j => (⟨env.objectAtIndex arr (i + j)⟩ : Rc true))

/-- The array reference the registry yields for the bundle-id string. -/
def arrRef (env : AppEnv) : Ptr := env.runningApplications env.nsstringInit

/-- State after the two owned acquisitions (string, then array) of
`running_apps_with_bundle_id`, before the element loop. -/
def preLoopSt (env : AppEnv) (s : St) : St :=
  foreignCreate (foreignCreate s env.nsstringInit) (arrRef env)

/-- Closed form of the state after a fully successful element loop over
indices `i, …, i+r-1`: each element reference gained one unit of count, `r`
retains were performed, no releases. -/
def stAfter (env : AppEnv) (arr : Ptr) (i r : Nat) (s : St) : St :=
  ⟨fun q => s.heap q + (elemPtrs env arr i r).count q, s.retains + r,
    s.releases⟩

/-- A concrete state for witnesses: every allocation at count 3, no calls yet. -/
def stEx : St := ⟨fun _ => 3, 0, 0⟩

/-- A permission environment whose factory fails (returns null). -/
def permEnvNull : PermEnv := ⟨0, fun _ => true⟩

/-- A permission environment whose factory returns the reference `4` and
whose trust query reports `true`. -/
def permEnvSome : PermEnv := ⟨4, fun _ => true⟩

/-- An application environment whose registry call returns null. -/
def appEnvRegNull : AppEnv := ⟨7, fun _ => 0, fun _ => 0, fun _ _ => 0⟩

/-- An application environment with a two-element array: string reference
`1`, array reference `2`, elements `3` and `4`. -/
def appEnvTwo : AppEnv := ⟨1, fun _ => 2, fun _ => 2, fun _ i => i + 3⟩

/-- An application environment with an empty (length-0) non-null array. -/
def appEnvEmpty : AppEnv := ⟨1, fun _ => 2, fun _ => 0, fun _ _ => 0⟩

/-- Claim C1: for every non-null raw reference `p`, `as_rc` returns a handle
wrapping `p` and performs exactly one retain — the external count of `p`
right after the call is one greater than right before, every other count is
unchanged, and the retain counter advances by exactly one with no release —
regardless of the prior count; on null it returns `none` and performs zero
retains, leaving the state untouched. -/
theorem as_rc_performs_exactly_one_retain (s : St) (p : Ptr) :
    (p ≠ 0 →
      (as_rc s p).1 = some ⟨p⟩ ∧
      (as_rc s p).2.heap p = s.heap p + 1 ∧
      (∀ q, q ≠ p → (as_rc s p).2.heap q = s.heap q) ∧
      (as_rc s p).2.retains = s.retains + 1 ∧
      (as_rc s p).2.releases = s.releases) ∧
    (p = 0 → as_rc s p = (none, s)) := by
  constructor
  · intro hp
    refine ⟨?_, ?_, ?_, ?_, ?_⟩
    · simp [as_rc, Rc.new_mut, if_neg hp]
    · simp [as_rc, Rc.new_mut, if_neg hp, cfRetain, bumpHeap]
    · intro q hq
      simp [as_rc, Rc.new_mut, if_neg hp, cfRetain, bumpHeap, hq]
    · simp [as_rc, Rc.new_mut, if_neg hp, cfRetain]
    · simp [as_rc, Rc.new_mut, if_neg hp, cfRetain]
  · intro hp
    simp [as_rc, Rc.new_mut, hp]

theorem as_rc_performs_exactly_one_retain_witness :
    (as_rc stEx 5).1 = some ⟨5⟩ ∧ (as_rc stEx 5).2.heap 5 = 4 ∧
      as_rc stEx 0 = (none, stEx) :=
  ⟨((as_rc_performs_exactly_one_retain stEx 5).1 (by decide)).1,
   ((as_rc_performs_exactly_one_retain stEx 5).1 (by decide)).2.1,
   (as_rc_performs_exactly_one_retain stEx 0).2 rfl⟩

/-- Counting one handle at the head of the live list. -/
theorem owners_cons (l : List (Rc true)) (a : Rc true) (p : Ptr) :
    owners (a :: l) p = owners l p + if a.ptr = p then 1 else 0 := by
  by_cases h : a.ptr = p <;> simp [owners, List.countP_cons, h]

theorem mk_ptr (m : Bool) (p : Ptr) : (Rc.mk p : Rc m).ptr = p := rfl

theorem clone_mut_fst (s : St) (rc : Rc true) :
    (Rc.clone_mut s rc).1 = (⟨rc.ptr⟩ : Rc true) := rfl

theorem clone_mut_snd_heap (s : St) (rc : Rc true) :
    (Rc.clone_mut s rc).2.heap = bumpHeap s.heap rc.ptr := rfl

/-- Claim C2: the handle operations preserve the counting invariant.  If the
live handles (`rc :: hs`) each account for one unit of external count, then:
the count of `rc`'s allocation is at least 1 while `rc` exists; cloning `rc`
extends the live set and preserves the invariant; destroying `rc` preserves
the invariant for the remaining handles; destroying a handle performs
exactly one release, decrementing its allocation's count by exactly one and
leaving every other count unchanged. -/
theorem handle_ops_preserve_counting_invariant (hs : List (Rc true))
    (rc : Rc true) (s : St) (hinv : CountInv (rc :: hs) s) :
    1 ≤ s.heap rc.ptr ∧
    CountInv ((Rc.clone_mut s rc).1 :: rc :: hs) (Rc.clone_mut s rc).2 ∧
    CountInv hs (Rc.drop s rc) ∧
    (Rc.drop s rc).releases = s.releases + 1 ∧
    (Rc.drop s rc).heap rc.ptr = s.heap rc.ptr - 1 ∧
    ∀ q, q ≠ rc.ptr → (Rc.drop s rc).heap q = s.heap q := by
  refine ⟨?_, ?_, ?_, rfl, ?_, ?_⟩
  · have h0 := hinv rc.ptr
    rw [owners_cons hs rc rc.ptr, if_pos rfl] at h0
    omega
  · intro p
    have h0 := hinv p
    rw [owners_cons hs rc p] at h0
    rw [clone_mut_snd_heap, clone_mut_fst,
      owners_cons (rc :: hs) ⟨rc.ptr⟩ p, owners_cons hs rc p, mk_ptr]
    simp only [bumpHeap]
    by_cases h : rc.ptr = p
    · subst h
      simp only [if_true, eq_self_iff_true] at h0 ⊢
      omega
    · rw [if_neg h] at h0
      rw [if_neg h, if_neg (fun hh : p = rc.ptr => h hh.symm)]
      omega
  · intro p
    have h0 := hinv p
    rw [owners_cons hs rc p] at h0
    simp only [Rc.drop, cfRelease, decHeap]
    by_cases h : rc.ptr = p
    · subst h
      simp only [if_true, eq_self_iff_true] at h0 ⊢
      omega
    · rw [if_neg h] at h0
      rw [if_neg (fun hh : p = rc.ptr => h hh.symm)]
      omega
  · simp [Rc.drop, cfRelease, decHeap]
  · intro q hq
    simp [Rc.drop, cfRelease, decHeap, hq]

theorem handle_ops_preserve_counting_invariant_witness :
    1 ≤ stEx.heap 5 ∧
      (Rc.drop stEx (⟨5⟩ : Rc true)).releases = stEx.releases + 1 :=
  have hinv : CountInv [(⟨5⟩ : Rc true)] stEx := by
    intro p
    by_cases h : (5 : Ptr) = p <;>
      simp [owners, List.countP_cons, stEx, h]
  ⟨(handle_ops_preserve_counting_invariant [] ⟨5⟩ stEx hinv).1,
   (handle_ops_preserve_counting_invariant [] ⟨5⟩ stEx hinv).2.2.2.1⟩

/-- Claim C5: `has_accessibility_permissions` returns
`CouldNotCreateCFObject` when the options-dictionary factory returns null,
performing zero trust-query calls and leaving the state untouched; when the
factory returns non-null, it returns `Ok` of exactly the boolean the trust
query produces for the dictionary reference (one trust-query call). -/
theorem check_permission_factory_failure_and_trust (env : PermEnv) (s : St) :
    (env.dictionaryCreate = 0 →
      has_accessibility_permissions env s =
        (Except.error WiseError.CouldNotCreateCFObject, s, 0)) ∧
    (env.dictionaryCreate ≠ 0 →
      (has_accessibility_permissions env s).1 =
        Except.ok (env.axIsProcessTrusted env.dictionaryCreate) ∧
      (has_accessibility_permissions env s).2.2 = 1) := by
  constructor
  · intro h
    simp [has_accessibility_permissions, foreignCreate, Rc.new_const, h]
  · intro h
    constructor <;>
      simp [has_accessibility_permissions, foreignCreate, Rc.new_const, h,
        Rc.get_const]

theorem check_permission_factory_failure_and_trust_witness :
    has_accessibility_permissions permEnvNull stEx =
      (Except.error WiseError.CouldNotCreateCFObject, stEx, 0) ∧
    (has_accessibility_permissions permEnvSome stEx).1 = Except.ok true :=
  ⟨(check_permission_factory_failure_and_trust permEnvNull stEx).1 rfl,
   ((check_permission_factory_failure_and_trust permEnvSome stEx).2
      (by decide)).1⟩

/-- Claim C3: cloning is a total function (it never fails), the clone wraps
the same allocation as the original, the clone's `strong_count` immediately
after the clone equals the original's `strong_count` immediately before it
plus one, and dropping the clone restores every external count observed
before the clone. -/
theorem clone_count_plus_one_and_drop_restores (s : St) (rc : Rc true) :
    (Rc.clone_mut s rc).1.ptr = rc.ptr ∧
    Rc.strong_count (Rc.clone_mut s rc).2 (Rc.clone_mut s rc).1 =
      Rc.strong_count s rc + 1 ∧
    ∀ q, (Rc.drop (Rc.clone_mut s rc).2 (Rc.clone_mut s rc).1).heap q =
      s.heap q := by
  refine ⟨rfl, ?_, ?_⟩
  · simp [Rc.clone_mut, Rc.strong_count, cfRetain, cfGetRetainCount, bumpHeap]
  · intro q
    by_cases hq : q = rc.ptr <;>
      simp [Rc.clone_mut, Rc.drop, cfRetain, cfRelease, bumpHeap, decHeap, hq]

/-- Claim C6: `new_mut`, `new_const` and `into_rc` return `none` exactly when
the raw reference is null; on a non-null reference each returns a handle
wrapping exactly that reference.  All three are pure functions of the
pointer alone — they take no external state and so perform no retain and no
release, leaving every external count unchanged by construction. -/
theorem from_owned_none_iff_null_and_no_count_change (p : Ptr) :
    (Rc.new_mut p = none ↔ p = 0) ∧
    (Rc.new_const p = none ↔ p = 0) ∧
    into_rc p = Rc.new_mut p ∧
    (p ≠ 0 → Rc.new_mut p = some ⟨p⟩ ∧ Rc.new_const p = some ⟨p⟩) := by
  refine ⟨?_, ?_, rfl, ?_⟩
  · unfold Rc.new_mut
    split <;> simp_all
  · unfold Rc.new_const
    split <;> simp_all
  · intro hp
    simp [Rc.new_mut, Rc.new_const, hp]

theorem from_owned_none_iff_null_witness :
    (Rc.new_mut 0 = none ↔ (0 : Ptr) = 0) ∧
      Rc.new_mut 7 = some ⟨7⟩ ∧ Rc.new_const 7 = some ⟨7⟩ :=
  ⟨(from_owned_none_iff_null_and_no_count_change 0).1,
   ((from_owned_none_iff_null_and_no_count_change 7).2.2.2 (by decide))⟩

/-- Claim C9: the mutable-pointer flavor `Rc true` and the const-pointer
flavor `Rc false` have identical semantics: for every non-null pointer,
construction succeeds with the same stored reference, cloning yields the
same stored reference and the very same external state, dropping yields the
same external state, and `strong_count` and `get` agree. -/
theorem mut_const_flavors_equivalent (s : St) (p : Ptr) (hp : p ≠ 0) :
    Rc.new_mut p = some ⟨p⟩ ∧ Rc.new_const p = some ⟨p⟩ ∧
    (Rc.clone_mut s ⟨p⟩).1.ptr = (Rc.clone_const s ⟨p⟩).1.ptr ∧
    (Rc.clone_mut s ⟨p⟩).2 = (Rc.clone_const s ⟨p⟩).2 ∧
    Rc.drop s (⟨p⟩ : Rc true) = Rc.drop s (⟨p⟩ : Rc false) ∧
    Rc.strong_count s (⟨p⟩ : Rc true) = Rc.strong_count s (⟨p⟩ : Rc false) ∧
    Rc.get_mut ⟨p⟩ = Rc.get_const ⟨p⟩ := by
  exact ⟨by simp [Rc.new_mut, hp], by simp [Rc.new_const, hp],
    rfl, rfl, rfl, rfl, rfl⟩

theorem mut_const_flavors_equivalent_witness :
    Rc.new_mut 5 = some ⟨5⟩ ∧ Rc.new_const 5 = some ⟨5⟩ ∧
    (Rc.clone_mut stEx ⟨5⟩).1.ptr = (Rc.clone_const stEx ⟨5⟩).1.ptr ∧
    (Rc.clone_mut stEx ⟨5⟩).2 = (Rc.clone_const stEx ⟨5⟩).2 ∧
    Rc.drop stEx (⟨5⟩ : Rc true) = Rc.drop stEx (⟨5⟩ : Rc false) ∧
    Rc.strong_count stEx (⟨5⟩ : Rc true) =
      Rc.strong_count stEx (⟨5⟩ : Rc false) ∧
    Rc.get_mut ⟨5⟩ = Rc.get_const ⟨5⟩ :=
  mut_const_flavors_equivalent stEx 5 (by decide)

/-- Claim C10: round-trip at the public interface — for every non-null
pointer `p`, `new_mut p` returns a handle whose raw accessor yields exactly
`p`, and every clone's raw accessor agrees with the original's: `get`
always returns exactly the pointer the handle was constructed from. -/
theorem new_mut_get_roundtrip (p : Ptr) (hp : p ≠ 0) :
    Rc.new_mut p = some ⟨p⟩ ∧ Rc.get_mut ⟨p⟩ = p ∧
    ∀ s : St, Rc.get_mut (Rc.clone_mut s ⟨p⟩).1 = Rc.get_mut ⟨p⟩ := by
  exact ⟨by simp [Rc.new_mut, hp], rfl, fun s => rfl⟩

theorem new_mut_get_roundtrip_witness :
    Rc.new_mut 9 = some ⟨9⟩ ∧ Rc.get_mut ⟨9⟩ = 9 ∧
    ∀ s : St, Rc.get_mut (Rc.clone_mut s ⟨9⟩).1 = Rc.get_mut ⟨9⟩ :=
  new_mut_get_roundtrip 9 (by decide)

theorem St_ext (a b : St) (h1 : ∀ q, a.heap q = b.heap q)
    (h2 : a.retains = b.retains) (h3 : a.releases = b.releases) : a = b := by
  cases a
  cases b
  simp only [St.mk.injEq]
  exact ⟨funext h1, h2, h3⟩

theorem elemPtrs_succ (env : AppEnv) (arr : Ptr) (i r : Nat) :
    elemPtrs env arr i (r + 1) =
      env.objectAtIndex arr i :: elemPtrs env arr (i + 1) r := by
  unfold elemPtrs
  rw [List.range_succ_eq_map, List.map_cons, List.map_map]
  congr 1
  refine List.map_congr_left ?_
  intro j _
  simp only [Function.comp_apply]
  have he : i + Nat.succ j = i + 1 + j := by omega
  rw [he]

theorem expectedApps_succ (env : AppEnv) (arr : Ptr) (i r : Nat) :
    expectedApps env arr i (r + 1) =
      (⟨env.objectAtIndex arr i⟩ : Rc true) :: expectedApps env arr (i + 1) r := by
  unfold expectedApps
  rw [List.range_succ_eq_map, List.map_cons, List.map_map]
  congr 1
  refine List.map_congr_left ?_
  intro j _
  simp only [Function.comp_apply]
  have he : i + Nat.succ j = i + 1 + j := by omega
  rw [he]

/-- Closed form of a fully successful element loop: it returns the expected
handles and performs exactly one retain per element. -/
theorem collectApps_ok_char (env : AppEnv) (arr : Ptr) :
    ∀ (r i : Nat) (s : St),
      (∀ j, j < r → env.objectAtIndex arr (i + j) ≠ 0) →
      collectApps env arr i r s =
        (Except.ok (expectedApps env arr i r), stAfter env arr i r s) := by
  intro r
  induction r with
  | zero =>
    intro i s _
    have h1 : expectedApps env arr i 0 = [] := by simp [expectedApps]
    have h2 : stAfter env arr i 0 s = s := by
      refine St_ext _ _ ?_ ?_ ?_ <;> simp [stAfter, elemPtrs]
    simp [collectApps, h1, h2]
  | succ rr ih =>
    intro i s hnn
    have hp : env.objectAtIndex arr i ≠ 0 := by
      have h0 := hnn 0 (Nat.succ_pos rr)
      simpa using h0
    have hnn2 : ∀ j, j < rr → env.objectAtIndex arr (i + 1 + j) ≠ 0 := by
      intro j hj
      have h0 := hnn (j + 1) (by omega)
      have he : i + (j + 1) = i + 1 + j := by omega
      rwa [he] at h0
    have ha : as_rc s (env.objectAtIndex arr i) =
        (some ⟨env.objectAtIndex arr i⟩,
         ⟨bumpHeap s.heap (env.objectAtIndex arr i), s.retains + 1,
          s.releases⟩) := by
      simp [as_rc, Rc.new_mut, hp, cfRetain]
    have hrec := ih (i + 1)
      ⟨bumpHeap s.heap (env.objectAtIndex arr i), s.retains + 1, s.releases⟩
      hnn2
    have hexp := expectedApps_succ env arr i rr
    have hst : stAfter env arr (i + 1) rr
        ⟨bumpHeap s.heap (env.objectAtIndex arr i), s.retains + 1,
          s.releases⟩ = stAfter env arr i (rr + 1) s := by
      refine St_ext _ _ ?_ ?_ ?_
      · intro q
        simp only [stAfter, elemPtrs_succ, List.count_cons, bumpHeap]
        by_cases h : q = env.objectAtIndex arr i
        · simp [h]
          omega
        · simp [h]
          exact fun hh => h hh.symm
      · simp only [stAfter]
        omega
      · rfl
    simp only [collectApps, ha, hrec, hexp, hst]

/-- On an error exit of the element loop, every handle already acquired has
been released again: the heap is exactly what it was when the loop began. -/
theorem collectApps_error_heap (env : AppEnv) (arr : Ptr) :
    ∀ (r i : Nat) (s : St) (e : WiseError),
      (collectApps env arr i r s).1 = Except.error e →
      ∀ q, (collectApps env arr i r s).2.heap q = s.heap q := by
  intro r
  induction r with
  | zero =>
    intro i s e h q
    simp [collectApps] at h
  | succ rr ih =>
    intro i s e h q
    by_cases hp : env.objectAtIndex arr i = 0
    · have ha : as_rc s (env.objectAtIndex arr i) = (none, s) := by
        simp [as_rc, Rc.new_mut, hp]
      simp only [collectApps, ha]
    · have ha : as_rc s (env.objectAtIndex arr i) =
          (some ⟨env.objectAtIndex arr i⟩,
           ⟨bumpHeap s.heap (env.objectAtIndex arr i), s.retains + 1,
            s.releases⟩) := by
        simp [as_rc, Rc.new_mut, hp, cfRetain]
      rcases hrec : collectApps env arr (i + 1) rr
          ⟨bumpHeap s.heap (env.objectAtIndex arr i), s.retains + 1,
            s.releases⟩ with ⟨res1, s2⟩
      cases res1 with
      | ok rest =>
        simp only [collectApps, ha, hrec] at h
        exact Except.noConfusion h
      | error e2 =>
        have hih := ih (i + 1) ⟨bumpHeap s.heap (env.objectAtIndex arr i),
            s.retains + 1, s.releases⟩ e2 (by rw [hrec]) q
        rw [hrec] at hih
        simp only [collectApps, ha, hrec, Rc.drop, cfRelease, decHeap, mk_ptr]
        simp only [bumpHeap] at hih
        by_cases hq : q = env.objectAtIndex arr i
        · rw [if_pos hq] at hih ⊢
          omega
        · rw [if_neg hq] at hih ⊢
          omega

/-- Evaluation of `running_apps_with_bundle_id` when the string constructor
returns null. -/
theorem running_apps_str_null (env : AppEnv) (s : St)
    (h : env.nsstringInit = 0) :
    running_apps_with_bundle_id env s =
      (Except.error WiseError.CouldNotCreateCFObject, s) := by
  simp [running_apps_with_bundle_id, into_rc, Rc.new_mut, foreignCreate, h]

/-- Evaluation of `running_apps_with_bundle_id` when the registry call
returns null: `UnexpectedNull`, with the string handle released on exit. -/
theorem running_apps_reg_null (env : AppEnv) (s : St)
    (h1 : env.nsstringInit ≠ 0) (h2 : arrRef env = 0) :
    running_apps_with_bundle_id env s =
      (Except.error WiseError.UnexpectedNull,
        cfRelease (foreignCreate s env.nsstringInit) env.nsstringInit) := by
  have h2a : env.runningApplications env.nsstringInit = 0 := h2
  simp [running_apps_with_bundle_id, into_rc, Rc.new_mut, h1, h2a,
    Rc.get_mut, Rc.drop, foreignCreate]

/-- Evaluation of `running_apps_with_bundle_id` on the main path (string and
array both non-null): the element loop runs from the post-acquisition state,
and the array and string handles are released on exit. -/
theorem running_apps_main_eq (env : AppEnv) (s : St)
    (h1 : env.nsstringInit ≠ 0) (h2 : arrRef env ≠ 0) :
    running_apps_with_bundle_id env s =
      ((collectApps env (arrRef env) 0 (env.nsarrayCount (arrRef env))
          (preLoopSt env s)).1,
        cfRelease (cfRelease
          (collectApps env (arrRef env) 0 (env.nsarrayCount (arrRef env))
            (preLoopSt env s)).2 (arrRef env)) env.nsstringInit) := by
  have h2a : env.runningApplications env.nsstringInit ≠ 0 := h2
  simp [running_apps_with_bundle_id, into_rc, Rc.new_mut, preLoopSt, arrRef,
    h1, h2a, Rc.get_mut, Rc.drop, foreignCreate]

/-- Final heap after a fully successful run: the creation of the string and
array references is cancelled by their release at scope exit, and each
returned element keeps exactly the one unit of count its shared acquisition
took. -/
theorem final_heap_ok (env : AppEnv) (s : St)
    (h1 : env.nsstringInit ≠ 0) (h2 : arrRef env ≠ 0) (K : Nat) (q : Ptr) :
    (cfRelease (cfRelease (stAfter env (arrRef env) 0 K (preLoopSt env s))
        (arrRef env)) env.nsstringInit).heap q =
      s.heap q + (elemPtrs env (arrRef env) 0 K).count q := by
  simp only [cfRelease, decHeap, stAfter, preLoopSt, foreignCreate,
    if_neg h1, if_neg h2, bumpHeap]
  split_ifs <;> omega

/-- Claim C7: `running_apps_with_bundle_id` returns `UnexpectedNull` whenever
the registry call yields a null array reference, and on every error exit
(string-constructor failure, null registry result, or a null element
mid-loop) all handles constructed during the operation have been released by
scope exit: the external count of every allocation is exactly what it was
before the call — no leaks and no partial results. -/
theorem running_apps_unexpected_null_and_no_leak (env : AppEnv) (s : St) :
    (env.nsstringInit ≠ 0 → arrRef env = 0 →
      (running_apps_with_bundle_id env s).1 =
        Except.error WiseError.UnexpectedNull) ∧
    (∀ e, (running_apps_with_bundle_id env s).1 = Except.error e →
      ∀ q, (running_apps_with_bundle_id env s).2.heap q = s.heap q) := by
  constructor
  · intro h1 h2
    rw [running_apps_reg_null env s h1 h2]
  · intro e he q
    by_cases h1 : env.nsstringInit = 0
    · rw [running_apps_str_null env s h1]
    · by_cases h2 : arrRef env = 0
      · rw [running_apps_reg_null env s h1 h2]
        simp only [cfRelease, decHeap, foreignCreate, if_neg h1, bumpHeap]
        split_ifs <;> omega
      · have hrun := running_apps_main_eq env s h1 h2
        rw [hrun] at he ⊢
        rcases hres : collectApps env (arrRef env) 0
            (env.nsarrayCount (arrRef env)) (preLoopSt env s) with ⟨res1, s2⟩
        cases res1 with
        | ok xs =>
          rw [hres] at he
          simp at he
        | error e2 =>
          have hih := collectApps_error_heap env (arrRef env)
            (env.nsarrayCount (arrRef env)) 0 (preLoopSt env s) e2
            (by rw [hres]) q
          rw [hres] at hih
          simp only [cfRelease, decHeap]
          simp only [preLoopSt, foreignCreate, if_neg h1, if_neg h2,
            bumpHeap] at hih
          split_ifs at hih ⊢ <;> omega

theorem running_apps_unexpected_null_and_no_leak_witness :
    (running_apps_with_bundle_id appEnvRegNull stEx).1 =
      Except.error WiseError.UnexpectedNull ∧
    (running_apps_with_bundle_id appEnvRegNull stEx).2.heap 7 =
      stEx.heap 7 :=
  ⟨(running_apps_unexpected_null_and_no_leak appEnvRegNull stEx).1
      (by decide) rfl,
   (running_apps_unexpected_null_and_no_leak appEnvRegNull stEx).2
      WiseError.UnexpectedNull
      ((running_apps_unexpected_null_and_no_leak appEnvRegNull stEx).1
        (by decide) rfl) 7⟩

/-- Claim C4: for an array of `K` matching elements (string and array
references non-null, every element reference non-null),
`running_apps_with_bundle_id` returns `Ok` of exactly `K` handles, the
`i`-th wrapping the `i`-th element reference of the array; and in the state
after the function returns — the array's own handle having been dropped at
scope exit — every returned handle's allocation still has count at least 1,
each handle holding its own unit of external count from its shared
acquisition. -/
theorem running_apps_k_matching_elements (env : AppEnv) (s : St) (K : Nat)
    (h1 : env.nsstringInit ≠ 0) (h2 : arrRef env ≠ 0)
    (hK : env.nsarrayCount (arrRef env) = K)
    (helem : ∀ i, i < K → env.objectAtIndex (arrRef env) i ≠ 0) :
    ∃ apps, (running_apps_with_bundle_id env s).1 = Except.ok apps ∧
      apps.length = K ∧
      (∀ i, ∀ hi : i < apps.length,
        (apps.get ⟨i, hi⟩).ptr = env.objectAtIndex (arrRef env) i) ∧
      ∀ rc ∈ apps,
        1 ≤ Rc.strong_count (running_apps_with_bundle_id env s).2 rc := by
  have hcoll := collectApps_ok_char env (arrRef env) K 0 (preLoopSt env s)
    (by intro j hj; simpa using helem j hj)
  have hrun := running_apps_main_eq env s h1 h2
  rw [hK, hcoll] at hrun
  refine ⟨expectedApps env (arrRef env) 0 K, ?_, ?_, ?_, ?_⟩
  · rw [hrun]
  · simp [expectedApps]
  · intro i hi
    simp [expectedApps, List.get_eq_getElem]
  · intro rc hrc
    obtain ⟨j, hj, hje⟩ := List.mem_map.mp hrc
    have hmem : rc.ptr ∈ elemPtrs env (arrRef env) 0 K := by
      rw [← hje]
      exact List.mem_map.mpr ⟨j, hj, rfl⟩
    have hpos := List.count_pos_iff.mpr hmem
    rw [hrun]
    show 1 ≤ (cfRelease (cfRelease (stAfter env (arrRef env) 0 K
        (preLoopSt env s)) (arrRef env)) env.nsstringInit).heap rc.ptr
    rw [final_heap_ok env s h1 h2 K rc.ptr]
    omega

theorem running_apps_k_matching_elements_witness :
    ∃ apps, (running_apps_with_bundle_id appEnvTwo stEx).1 =
        Except.ok apps ∧
      apps.length = 2 ∧
      (∀ i, ∀ hi : i < apps.length,
        (apps.get ⟨i, hi⟩).ptr =
          appEnvTwo.objectAtIndex (arrRef appEnvTwo) i) ∧
      ∀ rc ∈ apps,
        1 ≤ Rc.strong_count (running_apps_with_bundle_id appEnvTwo stEx).2
          rc :=
  running_apps_k_matching_elements appEnvTwo stEx 2 (by decide) (by decide)
    rfl (fun i hi => by show i + 3 ≠ 0; omega)

/-- Claim C8: on an identifier matching zero processes — a non-null array of
length 0 — `running_apps_with_bundle_id` returns `Ok` of the empty sequence,
not an error. -/
theorem running_apps_zero_matches_ok_empty (env : AppEnv) (s : St)
    (h1 : env.nsstringInit ≠ 0) (h2 : arrRef env ≠ 0)
    (hK : env.nsarrayCount (arrRef env) = 0) :
    (running_apps_with_bundle_id env s).1 = Except.ok [] := by
  have hcoll := collectApps_ok_char env (arrRef env) 0 0 (preLoopSt env s)
    (by intro j hj; omega)
  have hrun := running_apps_main_eq env s h1 h2
  rw [hK, hcoll] at hrun
  rw [hrun]
  simp [expectedApps]

theorem running_apps_zero_matches_ok_empty_witness :
    (running_apps_with_bundle_id appEnvEmpty stEx).1 = Except.ok [] :=
  running_apps_zero_matches_ok_empty appEnvEmpty stEx (by decide) (by decide)
    rfl

end Wise
